import Mathlib

/-!
Verification of the resume-analyzer core (`app/models/resume_analyzer.py`).

The Python code is shallowly embedded below.  Machine strings are Lean
`String`s (lists of characters); the ASCII-relevant behaviour of the Python
`str` methods (`lower`, `upper`, `strip`, `title`, `split`, substring `in`)
is modelled by executable functions on `List Char`.  The two optional NLP
collaborators (the spaCy preprocessing model and the BERT NER pipeline) are
modelled as optional parameters: an `Option (String → String)` for the
preprocessing collaborator and an `Option (List String)` for the list of
ORG entities produced by the entity-extraction collaborator (`none` covers
both the collaborator being absent and its call failing, which the code
catches and ignores).
-/

/-! ### Character-level models of Python `str` methods (ASCII fragment) -/

/-- Whitespace characters recognised by the Python regex `\s` and by
`str.strip`/`str.split` (ASCII fragment). -/
def isWS : Char → Bool
  | ' ' | '\t' | '\n' | '\r' | '\x0b' | '\x0c' => true
  | _ => false

/-- The 26 ASCII uppercase/lowercase letter pairs. -/
def upperLowerPairs : List (Char × Char) :=
  [('A', 'a'), ('B', 'b'), ('C', 'c'), ('D', 'd'), ('E', 'e'), ('F', 'f'),
   ('G', 'g'), ('H', 'h'), ('I', 'i'), ('J', 'j'), ('K', 'k'), ('L', 'l'),
   ('M', 'm'), ('N', 'n'), ('O', 'o'), ('P', 'p'), ('Q', 'q'), ('R', 'r'),
   ('S', 's'), ('T', 't'), ('U', 'u'), ('V', 'v'), ('W', 'w'), ('X', 'x'),
   ('Y', 'y'), ('Z', 'z')]

/-- ASCII model of Python `str.lower` on a single character. -/
def lowerChar (c : Char) : Char :=
  match upperLowerPairs.find? (fun p => p.fst == c) with
  | some p => p.snd
  | none => c

/-- ASCII model of Python `str.upper` on a single character. -/
def upperChar (c : Char) : Char :=
  match upperLowerPairs.find? (fun p => p.snd == c) with
  | some p => p.fst
  | none => c

def lowerL (l : List Char) : List Char := l.map lowerChar

/-- Python `str.lower`. -/
def pyLower (s : String) : String := ⟨lowerL s.data⟩

/-- One step of collapsing whitespace runs; the flag records whether the
previous character was whitespace (model of `re.sub(r'\s+', ' ', text)`,
which replaces each maximal whitespace run by a single space). -/
def collapseWSAux : Bool → List Char → List Char
  | _, [] => []
  | prevWS, c :: cs =>
    if isWS c then
      if prevWS then collapseWSAux true cs
      else ' ' :: collapseWSAux true cs
    else c :: collapseWSAux false cs

def collapseWS (l : List Char) : List Char := collapseWSAux false l

/-- Python `str.strip` (drop leading and trailing whitespace). -/
def trimWS (l : List Char) : List Char :=
  ((l.dropWhile isWS).reverse.dropWhile isWS).reverse

def pyStrip (s : String) : String := ⟨trimWS s.data⟩

/-- Python substring test `needle in haystack` on character lists. -/
def substrB (needle : List Char) : List Char → Bool
  | [] => needle.isPrefixOf ([] : List Char)
  | c :: t => needle.isPrefixOf (c :: t) || substrB needle t

/-- Python `needle in haystack` on strings. -/
def pyContains (haystack needle : String) : Bool := substrB needle.data haystack.data

/-- One step of Python `str.title`: a letter is uppercased when the previous
character was not a letter and lowercased otherwise (ASCII model; the flag
records whether the previous character was a letter). -/
def titleAux : Bool → List Char → List Char
  | _, [] => []
  | prevAlpha, c :: cs =>
    (if c.isAlpha then (if prevAlpha then lowerChar c else upperChar c) else c)
      :: titleAux c.isAlpha cs

/-- Python `str.title`. -/
def pyTitle (s : String) : String := ⟨titleAux false s.data⟩

/-- Words of a character list: maximal whitespace-free runs, empty runs
dropped (model of argumentless Python `str.split`); the accumulator holds
the current word reversed. -/
def splitWordsAux : List Char → List Char → List (List Char)
  | [], acc => if acc.isEmpty then [] else [acc.reverse]
  | c :: cs, acc =>
    if isWS c then
      if acc.isEmpty then splitWordsAux cs [] else acc.reverse :: splitWordsAux cs []
    else splitWordsAux cs (c :: acc)

/-- `len(text.split())` in Python. -/
def wordCount (s : String) : Nat := (splitWordsAux s.data []).length

/-- `text.split('\n')` in Python. -/
def splitLinesStr (s : String) : List String :=
  (s.data.splitOn '\n').map (fun l => ⟨l⟩)

/-! ### Static vocabularies of `ResumeAnalyzer.__init__` -/

/-- `self.skill_keywords`, in definition order. -/
def skill_keywords : List String :=
  ["python", "java", "javascript", "c++", "c#", "ruby", "php", "swift", "kotlin", "go", "rust",
   "scala", "r", "matlab", "sql", "typescript", "perl", "shell", "bash",
   "html", "css", "react", "angular", "vue", "node.js", "express", "django", "flask",
   "spring", "asp.net", "laravel", "rails", "bootstrap", "jquery", "ajax",
   "mysql", "postgresql", "mongodb", "redis", "oracle", "sql server", "firebase",
   "cassandra", "elasticsearch", "dynamodb",
   "aws", "azure", "google cloud", "gcp", "docker", "kubernetes", "terraform",
   "jenkins", "ansible", "chef", "puppet",
   "pandas", "numpy", "scikit-learn", "tensorflow", "pytorch", "keras",
   "matplotlib", "seaborn", "plotly", "nltk", "spacy", "opencv",
   "hadoop", "spark", "hive", "kafka", "airflow",
   "git", "linux", "unix", "ubuntu", "centos", "agile", "scrum", "jira",
   "confluence", "excel", "tableau", "power bi", "sap", "erp"]

/-- `self.job_keywords`, an association list keyed by job-position tag. -/
def job_keywords : List (String × List String) :=
  [("software-engineer",
    ["programming", "coding", "software development", "debugging", "testing",
     "algorithms", "data structures", "oop", "object oriented", "design patterns",
     "version control", "git", "api", "rest", "microservices"]),
   ("data-scientist",
    ["machine learning", "deep learning", "neural networks", "regression",
     "classification", "clustering", "nlp", "natural language processing",
     "statistical analysis", "data visualization", "pandas", "numpy", "r",
     "python", "tensorflow", "pytorch", "scikit-learn"]),
   ("web-developer",
    ["html", "css", "javascript", "react", "angular", "vue", "node.js",
     "frontend", "backend", "responsive design", "cross-browser compatibility",
     "rest api", "json", "ajax", "bootstrap", "jquery"]),
   ("product-manager",
    ["product strategy", "roadmap", "market research", "user stories",
     "agile", "scrum", "sprint", "product lifecycle", "ux", "ui",
     "stakeholder management", "prioritization", "metrics", "kpi"]),
   ("ui-ux-designer",
    ["user experience", "user interface", "wireframing", "prototyping",
     "figma", "sketch", "adobe xd", "usability testing", "accessibility",
     "design thinking", "user research", "information architecture",
     "visual design", "typography", "color theory"])]

/-- The action-verb list of `extract_experiences`. -/
def action_verbs : List String :=
  ["managed", "developed", "created", "implemented", "designed", "optimized",
   "led", "collaborated", "analyzed", "improved", "increased", "reduced",
   "streamlined", "automated", "mentored", "trained", "coordinated"]

/-! ### `preprocess_text` -/

/-- The spaCy-free branch of `preprocess_text`: lower-case, collapse each
whitespace run to one space, strip the ends. -/
def preprocess_fallback (s : String) : String :=
  ⟨trimWS (collapseWS (lowerL s.data))⟩

/-- `preprocess_text`; the optional linguistic collaborator (`self.nlp`) is
an arbitrary text transformation when present. -/
def preprocess_text (nlp : Option (String → String)) (s : String) : String :=
  match nlp with
  | some f => f s
  | none => preprocess_fallback s

/-! ### `extract_skills` -/

/-- Order-preserving removal of exact duplicates (the `seen`-set loop of
`extract_skills`); `seen` holds the strings already emitted. -/
def dedupFirstAux (seen : List String) : List String → List String
  | [] => []
  | x :: xs =>
    if x ∈ seen then dedupFirstAux seen xs else x :: dedupFirstAux (x :: seen) xs

def dedupFirst (l : List String) : List String := dedupFirstAux [] l

/-- `extract_skills`: vocabulary matches (title-cased) in definition order,
then the ORG entities of the entity-extraction collaborator (`none` when the
collaborator is absent or its call fails), deduplicated exactly, first 20. -/
def extract_skills (nlp : Option (String → String)) (ner : Option (List String))
    (text : String) : List String :=
  let processed := pyLower (preprocess_text nlp text)
  let vocabMatches := (skill_keywords.filter (fun k => pyContains processed (pyLower k))).map pyTitle
  let orgs := match ner with | some os => os | none => []
  (dedupFirst (vocabMatches ++ orgs)).take 20

/-! ### `extract_experiences` -/

/-- The keep test of `extract_experiences`: the stripped, lower-cased copy
of the line is longer than 10 characters and contains some action verb as a
substring. -/
def keepLine (line : String) : Bool :=
  decide (10 < (pyLower (pyStrip line)).data.length)
    && action_verbs.any (fun v => pyContains (pyLower (pyStrip line)) v)

/-- The emitted form of a kept line: the stripped original with its first
character uppercased. -/
def formatLine (line : String) : String :=
  match (pyStrip line).data with
  | [] => ""
  | c :: cs => ⟨upperChar c :: cs⟩

/-- Loop body of `extract_experiences`: the guard, then the redundant
non-emptiness test (`if formatted_line:`) before uppercasing. -/
def pickLine (line : String) : Option String :=
  if keepLine line then
    match (pyStrip line).data with
    | [] => none
    | c :: cs => some ⟨upperChar c :: cs⟩
  else none

/-- `extract_experiences`: scan the lines of the text, keep and reformat the
matching ones, first 10. -/
def extract_experiences (text : String) : List String :=
  ((splitLinesStr text).filterMap pickLine).take 10

/-! ### `calculate_score` -/

/-- The keyword-density count of `calculate_score`: vocabulary terms that
occur (case-insensitively) in the raw text. -/
def keyword_count (text : String) : Nat :=
  (skill_keywords.filter (fun k => pyContains (pyLower text) (pyLower k))).length

/-- Word-count banding of `calculate_score` (`score += 30/20/10`). -/
def lengthPoints (text : String) : Int :=
  if 200 ≤ wordCount text ∧ wordCount text ≤ 800 then 30
  else if 100 < wordCount text then 20
  else 10

/-- Skill-count banding of `calculate_score` (`score += 25/15/5`). -/
def skillPoints (skills : List String) : Int :=
  if 10 ≤ skills.length then 25
  else if 5 ≤ skills.length then 15
  else 5

/-- Experience-count banding of `calculate_score` (`score += 25/15/5`). -/
def expPoints (exps : List String) : Int :=
  if 5 ≤ exps.length then 25
  else if 2 ≤ exps.length then 15
  else 5

/-- Keyword-density banding of `calculate_score` (`score += 20/10/5`). -/
def keywordPoints (text : String) : Int :=
  if 15 ≤ keyword_count text then 20
  else if 8 ≤ keyword_count text then 10
  else 5

/-- `calculate_score`: the four accumulated contributions, then the final
`min(max(score, 0), 100)` clamp. -/
def calculate_score (text : String) (skills exps : List String) : Int :=
  min (max (lengthPoints text + skillPoints skills + expPoints exps + keywordPoints text) 0) 100

/-! ### `generate_recommendations` -/

def weak_action_verbs : List String :=
  ["helped", "assisted", "worked on", "was responsible for"]

def strong_action_verbs : List String :=
  ["managed", "developed", "created", "implemented", "optimized", "led"]

def metrics_keywords : List String :=
  ["%", "increased", "decreased", "improved", "reduced", "grew", "$", "saved"]

/-- Number of terms of `terms` occurring in the lower-cased experience line
`e` (the inner generator of the double-sum counters). -/
def termHits (terms : List String) (e : String) : Nat :=
  (terms.filter (fun v => pyContains (pyLower e) v)).length

/-- `weak_count`: pairs (experience line, weak verb contained in it). -/
def weak_count (exps : List String) : Nat :=
  (exps.map (termHits weak_action_verbs)).sum

/-- `strong_count`: pairs (experience line, strong verb contained in it). -/
def strong_count (exps : List String) : Nat :=
  (exps.map (termHits strong_action_verbs)).sum

/-- `metrics_count`: pairs (experience line, metric marker contained). -/
def metrics_count (exps : List String) : Nat :=
  (exps.map (termHits metrics_keywords)).sum

def skills_low_tip : String :=
  "Add more technical skills and certifications relevant to your field."

def experiences_low_tip : String :=
  "Include more quantifiable achievements with specific metrics (e.g., \x27Increased sales by 25%\x27)."

def strong_verbs_tip : String :=
  "Use stronger action verbs to describe your accomplishments (e.g., \x27Led\x27 instead of \x27Helped\x27)."

def metrics_tip : String :=
  "Include more quantifiable results to demonstrate impact (e.g., \x27Reduced processing time by 40%\x27)."

def summary_tip : String :=
  "Add a professional summary or objective at the beginning of your resume."

def fallback_tip1 : String := "Review your resume for typos and grammatical errors."

def fallback_tip2 : String := "Ensure consistent formatting throughout the document."

def fallback_tip3 : String := "Tailor your resume for each job application."

/-- `job_position.replace('-', ' ')`. -/
def hyphenToSpace (s : String) : String :=
  ⟨s.data.map (fun c => if c == '-' then ' ' else c)⟩

/-- The job-specific recommendation block: fires only when a job position is
supplied, is truthy (Python: the empty string is falsy), and is a key of
`job_keywords`; lists the first 5 title-cased profile keywords missing from
the text. -/
def missingKeywords (text : String) (kws : List String) : List String :=
  (kws.filter (fun k => !(pyContains (pyLower text) (pyLower k)))).map pyTitle

def job_rec (text : String) (jp : Option String) : List String :=
  match jp with
  | none => []
  | some p =>
    if p = "" then []
    else
      match job_keywords.find? (fun kv => kv.fst == p) with
      | none => []
      | some kv =>
        if (missingKeywords text kv.snd).isEmpty then []
        else ["Consider adding these keywords relevant to "
                ++ pyTitle (hyphenToSpace p) ++ ": "
                ++ String.intercalate ", " ((missingKeywords text kv.snd).take 5)]

/-- The `recommendations` list of `generate_recommendations` before the
fallback test: the six conditional appends in source order.  Note that the
metrics test `metrics_count < len(experiences) / 2` uses Python float
division, i.e. `2 * metrics_count < len(experiences)` exactly. -/
def recsList (text : String) (skills exps : List String) (jp : Option String) : List String :=
  (if skills.length < 8 then [skills_low_tip] else [])
    ++ (if exps.length < 4 then [experiences_low_tip] else [])
    ++ (if strong_count exps < weak_count exps then [strong_verbs_tip] else [])
    ++ (if 2 * metrics_count exps < exps.length then [metrics_tip] else [])
    ++ job_rec text jp
    ++ (if !(pyContains (pyLower text) "objective") && !(pyContains (pyLower text) "summary")
        then [summary_tip] else [])

/-- `generate_recommendations`: the conditional appends, then the
all-or-nothing fallback when nothing was appended. -/
def generate_recommendations (text : String) (skills exps : List String)
    (jp : Option String) : List String :=
  if (recsList text skills exps jp).isEmpty
  then [fallback_tip1, fallback_tip2, fallback_tip3]
  else recsList text skills exps jp

/-! ### Claim-side definitions (formalising the spec wording to compare) -/

/-- The case-insensitive/trimmed identity of a skill entry, as used by the
spec sentence on deduplication. -/
def ciKey (s : String) : String := pyLower (pyStrip s)

/-- Number of experience lines containing at least one weak action verb,
each line counted once (the reading of the spec sentence on the
stronger-action-verbs tip). -/
def weakLineCount (exps : List String) : Nat :=
  (exps.filter (fun e => weak_action_verbs.any (fun v => pyContains (pyLower e) v))).length

/-- Number of experience lines containing at least one strong action verb,
each line counted once. -/
def strongLineCount (exps : List String) : Nat :=
  (exps.filter (fun e => strong_action_verbs.any (fun v => pyContains (pyLower e) v))).length

/-! ## Scoring: band bounds shared by the score claims -/

theorem lengthPoints_bounds (t : String) : 10 ≤ lengthPoints t ∧ lengthPoints t ≤ 30 := by
  unfold lengthPoints
  split_ifs <;> omega

theorem skillPoints_bounds (s : List String) : 5 ≤ skillPoints s ∧ skillPoints s ≤ 25 := by
  unfold skillPoints
  split_ifs <;> omega

theorem expPoints_bounds (e : List String) : 5 ≤ expPoints e ∧ expPoints e ≤ 25 := by
  unfold expPoints
  split_ifs <;> omega

theorem keywordPoints_bounds (t : String) : 5 ≤ keywordPoints t ∧ keywordPoints t ≤ 20 := by
  unfold keywordPoints
  split_ifs <;> omega

/-- C1: `calculate_score` is the sum of the four banded factors (word-count
band 30/20/10, skill-count band 25/15/5, experience-count band 25/15/5,
keyword-density band 20/10/5, each checked in descending order with first
match winning); the result is an integer in [0, 100] and the final clamp
never changes the sum. -/
theorem claim_C1 (t : String) (skills exps : List String) :
    calculate_score t skills exps
      = (if 200 ≤ wordCount t ∧ wordCount t ≤ 800 then (30 : Int)
         else if 100 < wordCount t then 20 else 10)
        + (if 10 ≤ skills.length then (25 : Int) else if 5 ≤ skills.length then 15 else 5)
        + (if 5 ≤ exps.length then (25 : Int) else if 2 ≤ exps.length then 15 else 5)
        + (if 15 ≤ keyword_count t then (20 : Int) else if 8 ≤ keyword_count t then 10 else 5)
      ∧ 0 ≤ calculate_score t skills exps ∧ calculate_score t skills exps ≤ 100 := by
  have h1 := lengthPoints_bounds t
  have h2 := skillPoints_bounds skills
  have h3 := expPoints_bounds exps
  have h4 := keywordPoints_bounds t
  have e1 : (if 200 ≤ wordCount t ∧ wordCount t ≤ 800 then (30 : Int)
      else if 100 < wordCount t then 20 else 10) = lengthPoints t := rfl
  have e2 : (if 10 ≤ skills.length then (25 : Int)
      else if 5 ≤ skills.length then 15 else 5) = skillPoints skills := rfl
  have e3 : (if 5 ≤ exps.length then (25 : Int)
      else if 2 ≤ exps.length then 15 else 5) = expPoints exps := rfl
  have e4 : (if 15 ≤ keyword_count t then (20 : Int)
      else if 8 ≤ keyword_count t then 10 else 5) = keywordPoints t := rfl
  rw [e1, e2, e3, e4]
  unfold calculate_score
  omega

/-- C10: each factor of `calculate_score` contributes at least 10, 5, 5 and
5 points respectively, so the score lies in [25, 100] and the defensive
lower clamp `max _ 0` is the identity on the sum actually produced. -/
theorem claim_C10 (t : String) (skills exps : List String) :
    10 ≤ lengthPoints t ∧ 5 ≤ skillPoints skills ∧ 5 ≤ expPoints exps
      ∧ 5 ≤ keywordPoints t
      ∧ 25 ≤ calculate_score t skills exps ∧ calculate_score t skills exps ≤ 100
      ∧ max (lengthPoints t + skillPoints skills + expPoints exps + keywordPoints t) 0
          = lengthPoints t + skillPoints skills + expPoints exps + keywordPoints t := by
  have h1 := lengthPoints_bounds t
  have h2 := skillPoints_bounds skills
  have h3 := expPoints_bounds exps
  have h4 := keywordPoints_bounds t
  unfold calculate_score
  omega

/-! ## Deduplication lemmas for `extract_skills` -/

theorem not_mem_seen_of_mem_dedupFirstAux (l : List String) :
    ∀ seen x, x ∈ dedupFirstAux seen l → x ∉ seen := by
  induction l with
  | nil => intro seen x h; simp [dedupFirstAux] at h
  | cons a l ih =>
    intro seen x h
    unfold dedupFirstAux at h
    by_cases ha : a ∈ seen
    · rw [if_pos ha] at h
      exact ih seen x h
    · rw [if_neg ha] at h
      rcases List.mem_cons.mp h with rfl | h2
      · exact ha
      · intro hx
        exact (ih _ x h2) (List.mem_cons_of_mem a hx)

theorem nodup_dedupFirstAux (l : List String) : ∀ seen, (dedupFirstAux seen l).Nodup := by
  induction l with
  | nil => intro seen; simp [dedupFirstAux]
  | cons a l ih =>
    intro seen
    unfold dedupFirstAux
    by_cases ha : a ∈ seen
    · rw [if_pos ha]
      exact ih seen
    · rw [if_neg ha]
      refine List.nodup_cons.mpr ⟨?_, ih _⟩
      intro hmem
      exact (not_mem_seen_of_mem_dedupFirstAux l _ a hmem) (List.mem_cons_self a seen)

theorem nodup_extract_skills (nlp : Option (String → String)) (ner : Option (List String))
    (text : String) : (extract_skills nlp ner text).Nodup := by
  have h : (dedupFirst ((skill_keywords.filter
      (fun k => pyContains (pyLower (preprocess_text nlp text)) (pyLower k))).map pyTitle
        ++ (match ner with | some os => os | none => []))).Nodup := nodup_dedupFirstAux _ []
  exact List.Nodup.sublist (List.take_sublist 20 _) h

/-- C6: for every input text and every behaviour of the entity-extraction
collaborator (absent, failing, or returning any list of ORG entities) and of
the preprocessing collaborator, `extract_skills` returns at most 20 entries
and never two byte-identical entries. -/
theorem claim_C6 (nlp : Option (String → String)) (ner : Option (List String))
    (text : String) :
    (extract_skills nlp ner text).length ≤ 20 ∧ (extract_skills nlp ner text).Nodup :=
  ⟨List.length_take_le 20 _, nodup_extract_skills nlp ner text⟩

/-- C3, counterexample: deduplication in `extract_skills` is by exact string
identity, not by case-insensitive/trimmed identity.  With the vocabulary
match "Python" and the entity-extraction collaborator returning "PYTHON",
both survive deduplication although their trimmed case-folded keys agree. -/
theorem claim_C3_counterexample :
    extract_skills none (some ["PYTHON"]) "python" = ["Python", "PYTHON"]
      ∧ ciKey "Python" = ciKey "PYTHON" ∧ "Python" ≠ "PYTHON" :=
  ⟨by decide, by decide, by decide⟩

/-- C3 as amended: `extract_skills` deduplicates by exact byte identity
only: no two returned entries are equal as strings (entries that agree only
after trimming and case-folding may both appear, as the counterexample
shows). -/
theorem claim_C3_amended (nlp : Option (String → String)) (ner : Option (List String))
    (text : String) :
    (extract_skills nlp ner text).Pairwise (fun a b => a ≠ b) :=
  nodup_extract_skills nlp ner text

/-- C8: a job-position tag that is not a key of `job_keywords` produces no
keyword-gap recommendation and no error: the output equals the output with
no job position supplied. -/
theorem claim_C8 (text : String) (skills exps : List String) (p : String)
    (h : p ∉ job_keywords.map Prod.fst) :
    generate_recommendations text skills exps (some p)
      = generate_recommendations text skills exps none := by
  have hf : job_keywords.find? (fun kv => kv.fst == p) = none := by
    rw [List.find?_eq_none]
    intro kv hkv hbeq
    exact h (List.mem_map.mpr ⟨kv, hkv, by simpa using hbeq⟩)
  have hj : job_rec text (some p) = job_rec text none := by
    by_cases hp : p = ""
    · simp only [job_rec, if_pos hp]
    · simp only [job_rec, if_neg hp, hf]
  simp only [generate_recommendations, recsList, hj]

/-- Witness for C8 at the spec scenario tag "unknown-tag". -/
theorem claim_C8_witness :
    generate_recommendations "x" [] [] (some "unknown-tag")
      = generate_recommendations "x" [] [] none :=
  claim_C8 "x" [] [] "unknown-tag" (by decide)

/-! ## Experience extraction -/

theorem pickLine_eq_of_keep (line : String) (h : keepLine line = true) :
    pickLine line = some (formatLine line) := by
  have hparts := Bool.and_eq_true_iff.mp h
  have hlen : 10 < (pyLower (pyStrip line)).data.length := of_decide_eq_true hparts.1
  have hne : (pyStrip line).data ≠ [] := by
    intro hnil
    rw [show (pyLower (pyStrip line)).data = lowerL (pyStrip line).data from rfl, hnil] at hlen
    simp [lowerL] at hlen
  unfold pickLine formatLine
  rw [if_pos h]
  cases hd : (pyStrip line).data with
  | nil => exact absurd hd hne
  | cons c cs => rfl

theorem pickLine_eq_of_not_keep (line : String) (h : keepLine line = false) :
    pickLine line = none := by
  unfold pickLine
  rw [if_neg (by simp [h])]

theorem filterMap_pickLine (ls : List String) :
    ls.filterMap pickLine = (ls.filter keepLine).map formatLine := by
  induction ls with
  | nil => rfl
  | cons l ls ih =>
    cases hk : keepLine l with
    | true =>
      rw [List.filterMap_cons_some (pickLine_eq_of_keep l hk),
        List.filter_cons_of_pos hk, List.map_cons, ih]
    | false =>
      rw [List.filterMap_cons_none (pickLine_eq_of_not_keep l hk),
        List.filter_cons_of_neg (by simp [hk]), ih]

/-- C2: `extract_experiences` keeps a line exactly when its stripped,
lower-cased copy is longer than 10 characters and contains an action verb as
a substring (`keepLine`), emits the stripped original with its first
character uppercased (`formatLine`), preserves source-line order, and
truncates to at most 10 entries. -/
theorem claim_C2 (text : String) :
    extract_experiences text
      = (((splitLinesStr text).filter keepLine).map formatLine).take 10
    ∧ (extract_experiences text).length ≤ 10 := by
  constructor
  · show ((splitLinesStr text).filterMap pickLine).take 10 = _
    rw [filterMap_pickLine]
  · exact List.length_take_le 10 _

/-- C4, counterexample: the claim that every returned entry begins (after
trimming) with an action verb is false.  The line "it was managed by the
team" is returned because it contains "managed", yet it begins with "it",
which no action verb is a prefix of (checked against both the entry and its
lower-cased copy). -/
theorem claim_C4_counterexample :
    extract_experiences "it was managed by the team" = ["It was managed by the team"]
      ∧ (action_verbs.all (fun v =>
          !(v.data.isPrefixOf (pyStrip "It was managed by the team").data))) = true
      ∧ (action_verbs.all (fun v =>
          !(v.data.isPrefixOf (pyLower (pyStrip "It was managed by the team")).data))) = true :=
  ⟨by decide, by decide, by decide⟩

/-- C4 as amended: every entry returned by `extract_experiences` comes from
an input line whose stripped lower-cased copy is longer than 10 characters
and *contains* an action verb as a substring (not necessarily at its
beginning); the entry is that line, stripped, with its first character
uppercased. -/
theorem claim_C4_amended (text s : String) (h : s ∈ extract_experiences text) :
    ∃ line ∈ splitLinesStr text, keepLine line = true ∧ s = formatLine line := by
  have h2 : s ∈ (splitLinesStr text).filterMap pickLine :=
    List.take_subset 10 _ h
  rw [filterMap_pickLine] at h2
  rcases List.mem_map.mp h2 with ⟨line, hmem, hline⟩
  rcases List.mem_filter.mp hmem with ⟨hin, hkeep⟩
  exact ⟨line, hin, hkeep, hline.symm⟩

/-- Witness for C4 as amended, on a concrete kept line. -/
theorem claim_C4_witness :
    ∃ line ∈ splitLinesStr "developed many new features",
      keepLine line = true ∧ "Developed many new features" = formatLine line :=
  claim_C4_amended "developed many new features" "Developed many new features" (by decide)

/-! ## Recommendation generation -/

theorem head?_append_left {α : Type} {l : List α} (m : List α) {a : α}
    (h : l.head? = some a) : (l ++ m).head? = some a := by
  cases l with
  | nil => simp at h
  | cons c cs => simpa using h

/-- Every string produced by the job-specific block starts with the first
character of its fixed template prefix. -/
theorem job_rec_head (text : String) (jp : Option String) (s : String)
    (h : s ∈ job_rec text jp) : s.data.head? = some 'C' := by
  cases jp with
  | none => simp [job_rec] at h
  | some p =>
    simp only [job_rec] at h
    split at h
    · simp at h
    · split at h
      · simp at h
      · split at h
        · simp at h
        · have hs := List.mem_singleton.mp h
          rw [hs, String.data_append, String.data_append, String.data_append]
          exact head?_append_left _ (head?_append_left _ (head?_append_left _ rfl))

theorem strong_verbs_tip_not_mem_job_rec (text : String) (jp : Option String) :
    strong_verbs_tip ∉ job_rec text jp := by
  intro hmem
  exact absurd (job_rec_head text jp _ hmem) (by decide)

theorem fallback_tip1_not_mem_job_rec (text : String) (jp : Option String) :
    fallback_tip1 ∉ job_rec text jp := by
  intro hmem
  exact absurd (job_rec_head text jp _ hmem) (by decide)

theorem fallback_tip2_not_mem_job_rec (text : String) (jp : Option String) :
    fallback_tip2 ∉ job_rec text jp := by
  intro hmem
  exact absurd (job_rec_head text jp _ hmem) (by decide)

theorem fallback_tip3_not_mem_job_rec (text : String) (jp : Option String) :
    fallback_tip3 ∉ job_rec text jp := by
  intro hmem
  exact absurd (job_rec_head text jp _ hmem) (by decide)

theorem mem_ite_singleton {c : Prop} [Decidable c] {s a : String} :
    (s ∈ (if c then [a] else ([] : List String))) ↔ c ∧ s = a := by
  by_cases h : c <;> simp [h]

/-- Membership in the pre-fallback recommendation list, unfolded into the
six trigger rules. -/
theorem mem_recsList (text : String) (skills exps : List String) (jp : Option String)
    (s : String) :
    s ∈ recsList text skills exps jp
      ↔ ((skills.length < 8 ∧ s = skills_low_tip)
         ∨ (exps.length < 4 ∧ s = experiences_low_tip)
         ∨ (strong_count exps < weak_count exps ∧ s = strong_verbs_tip)
         ∨ (2 * metrics_count exps < exps.length ∧ s = metrics_tip)
         ∨ s ∈ job_rec text jp
         ∨ (((!(pyContains (pyLower text) "objective")
              && !(pyContains (pyLower text) "summary")) = true) ∧ s = summary_tip)) := by
  simp only [recsList, List.mem_append, mem_ite_singleton]
  tauto

/-- C5, counterexample: the claim counts each experience line once per side,
but the code counts (line, verb) pairs.  With one line containing two weak
verbs and one line containing one strong verb, the line counts tie (1 = 1),
so the claim predicts no tip, yet the tip is appended (pair counts 2 > 1). -/
theorem claim_C5_counterexample :
    strong_verbs_tip ∈ generate_recommendations "x" []
        ["Helped and assisted teammates", "Led major project"] none
      ∧ weakLineCount ["Helped and assisted teammates", "Led major project"] = 1
      ∧ strongLineCount ["Helped and assisted teammates", "Led major project"] = 1 :=
  ⟨by decide, by decide, by decide⟩

/-- C5 as amended: the stronger-action-verbs tip is appended if and only if
the number of (experience line, weak verb) pairs with the verb occurring in
the lower-cased line (`weak_count`, so a line with several weak verbs is
counted once per verb) exceeds the analogous count of (line, strong verb)
pairs. -/
theorem claim_C5_amended (text : String) (skills exps : List String) (jp : Option String) :
    strong_verbs_tip ∈ generate_recommendations text skills exps jp
      ↔ strong_count exps < weak_count exps := by
  have hjob := strong_verbs_tip_not_mem_job_rec text jp
  by_cases he : (recsList text skills exps jp).isEmpty
  · simp only [generate_recommendations]
    rw [if_pos he]
    constructor
    · intro hmem
      exact absurd hmem (by decide)
    · intro hc
      exfalso
      rw [List.isEmpty_iff] at he
      have hmem : strong_verbs_tip ∈ recsList text skills exps jp :=
        (mem_recsList text skills exps jp _).mpr (Or.inr (Or.inr (Or.inl ⟨hc, rfl⟩)))
      rw [he] at hmem
      simp at hmem
  · simp only [generate_recommendations]
    rw [if_neg he, mem_recsList]
    constructor
    · rintro (⟨-, h⟩ | ⟨-, h⟩ | ⟨hc, -⟩ | ⟨-, h⟩ | hj | ⟨-, h⟩)
      · exact absurd h (by decide)
      · exact absurd h (by decide)
      · exact hc
      · exact absurd h (by decide)
      · exact absurd hj hjob
      · exact absurd h (by decide)
    · intro hc
      exact Or.inr (Or.inr (Or.inl ⟨hc, rfl⟩))

/-- C7: the recommendation list is never empty; it is either exactly the
three fixed fallback tips or contains none of them (all-or-nothing); and
when none of the six trigger rules fires it is exactly the three fallback
tips in fixed order. -/
theorem claim_C7 (text : String) (skills exps : List String) (jp : Option String) :
    generate_recommendations text skills exps jp ≠ []
      ∧ (generate_recommendations text skills exps jp
            = [fallback_tip1, fallback_tip2, fallback_tip3]
          ∨ (fallback_tip1 ∉ generate_recommendations text skills exps jp
             ∧ fallback_tip2 ∉ generate_recommendations text skills exps jp
             ∧ fallback_tip3 ∉ generate_recommendations text skills exps jp))
      ∧ (¬ skills.length < 8 → ¬ exps.length < 4
          → ¬ strong_count exps < weak_count exps
          → ¬ 2 * metrics_count exps < exps.length
          → job_rec text jp = []
          → ¬ ((!(pyContains (pyLower text) "objective")
                && !(pyContains (pyLower text) "summary")) = true)
          → generate_recommendations text skills exps jp
              = [fallback_tip1, fallback_tip2, fallback_tip3]) := by
  refine ⟨?_, ?_, ?_⟩
  · by_cases he : (recsList text skills exps jp).isEmpty
    · simp only [generate_recommendations]
      rw [if_pos he]
      decide
    · simp only [generate_recommendations]
      rw [if_neg he]
      rw [List.isEmpty_iff] at he
      exact he
  · by_cases he : (recsList text skills exps jp).isEmpty
    · left
      simp only [generate_recommendations]
      rw [if_pos he]
    · right
      refine ⟨?_, ?_, ?_⟩
      · simp only [generate_recommendations]
        rw [if_neg he, mem_recsList]
        rintro (⟨-, h⟩ | ⟨-, h⟩ | ⟨-, h⟩ | ⟨-, h⟩ | hj | ⟨-, h⟩)
        · exact absurd h (by decide)
        · exact absurd h (by decide)
        · exact absurd h (by decide)
        · exact absurd h (by decide)
        · exact absurd hj (fallback_tip1_not_mem_job_rec text jp)
        · exact absurd h (by decide)
      · simp only [generate_recommendations]
        rw [if_neg he, mem_recsList]
        rintro (⟨-, h⟩ | ⟨-, h⟩ | ⟨-, h⟩ | ⟨-, h⟩ | hj | ⟨-, h⟩)
        · exact absurd h (by decide)
        · exact absurd h (by decide)
        · exact absurd h (by decide)
        · exact absurd h (by decide)
        · exact absurd hj (fallback_tip2_not_mem_job_rec text jp)
        · exact absurd h (by decide)
      · simp only [generate_recommendations]
        rw [if_neg he, mem_recsList]
        rintro (⟨-, h⟩ | ⟨-, h⟩ | ⟨-, h⟩ | ⟨-, h⟩ | hj | ⟨-, h⟩)
        · exact absurd h (by decide)
        · exact absurd h (by decide)
        · exact absurd h (by decide)
        · exact absurd h (by decide)
        · exact absurd hj (fallback_tip3_not_mem_job_rec text jp)
        · exact absurd h (by decide)
  · intro h1 h2 h3 h4 h5 h6
    have hr : recsList text skills exps jp = [] := by
      simp only [recsList, if_neg h1, if_neg h2, if_neg h3, if_neg h4, if_neg h6, h5]
      simp
    simp only [generate_recommendations, hr]
    simp

/-- Witness for the no-trigger case of C7: eight skills, four quantified
experience lines, text containing "summary", no job position. -/
theorem claim_C7_witness :
    generate_recommendations "summary objective"
        ["a", "b", "c", "d", "e", "f", "g", "h"]
        ["Increased x by 10% here", "Grew y $2 over there",
         "Developed z increased w", "Managed a lot of stuff"] none
      = [fallback_tip1, fallback_tip2, fallback_tip3] :=
  (claim_C7 "summary objective"
      ["a", "b", "c", "d", "e", "f", "g", "h"]
      ["Increased x by 10% here", "Grew y $2 over there",
       "Developed z increased w", "Managed a lot of stuff"] none).2.2
    (by decide) (by decide) (by decide) (by decide) (by decide) (by decide)

/-! ## Idempotence of the fallback preprocessing -/

theorem lowerChar_idem (c : Char) : lowerChar (lowerChar c) = lowerChar c := by
  rcases hf : upperLowerPairs.find? (fun p => p.fst == c) with _ | p
  · have h1 : lowerChar c = c := by unfold lowerChar; rw [hf]
    rw [h1, h1]
  · have h1 : lowerChar c = p.snd := by unfold lowerChar; rw [hf]
    have hp : p ∈ upperLowerPairs := List.mem_of_find?_eq_some hf
    rw [h1]
    fin_cases hp <;> decide

theorem collapseWSAux_cons_ws_true {d : Char} (ds : List Char) (hd : isWS d = true) :
    collapseWSAux true (d :: ds) = collapseWSAux true ds := by
  simp only [collapseWSAux]
  rw [if_pos hd]
  simp

theorem collapseWSAux_cons_ws_false {d : Char} (ds : List Char) (hd : isWS d = true) :
    collapseWSAux false (d :: ds) = ' ' :: collapseWSAux true ds := by
  simp only [collapseWSAux]
  rw [if_pos hd]
  simp

theorem collapseWSAux_cons_not_ws {d : Char} (ds : List Char) (b : Bool)
    (hd : isWS d = false) :
    collapseWSAux b (d :: ds) = d :: collapseWSAux false ds := by
  simp only [collapseWSAux]
  rw [if_neg (by simp [hd])]

/-- Characters of the collapsed list come from the input or are the space
substituted for a whitespace run. -/
theorem mem_collapseWSAux {c : Char} :
    ∀ (l : List Char) (b : Bool), c ∈ collapseWSAux b l → c = ' ' ∨ c ∈ l := by
  intro l
  induction l with
  | nil =>
    intro b h
    simp [collapseWSAux] at h
  | cons d ds ih =>
    intro b h
    cases hd : isWS d with
    | true =>
      cases b with
      | true =>
        rw [collapseWSAux_cons_ws_true ds hd] at h
        rcases ih true h with h1 | h1
        · exact Or.inl h1
        · exact Or.inr (List.mem_cons_of_mem d h1)
      | false =>
        rw [collapseWSAux_cons_ws_false ds hd] at h
        rcases List.mem_cons.mp h with rfl | h2
        · exact Or.inl rfl
        · rcases ih true h2 with h1 | h1
          · exact Or.inl h1
          · exact Or.inr (List.mem_cons_of_mem d h1)
    | false =>
      rw [collapseWSAux_cons_not_ws ds b hd] at h
      rcases List.mem_cons.mp h with rfl | h2
      · exact Or.inr (List.mem_cons_self c ds)
      · rcases ih false h2 with h1 | h1
        · exact Or.inl h1
        · exact Or.inr (List.mem_cons_of_mem d h1)

/-- Every whitespace character of the collapsed list is the substituted
space. -/
theorem ws_mem_collapseWSAux {c : Char} :
    ∀ (l : List Char) (b : Bool), c ∈ collapseWSAux b l → isWS c = true → c = ' ' := by
  intro l
  induction l with
  | nil =>
    intro b h _
    simp [collapseWSAux] at h
  | cons d ds ih =>
    intro b h hw
    cases hd : isWS d with
    | true =>
      cases b with
      | true =>
        rw [collapseWSAux_cons_ws_true ds hd] at h
        exact ih true h hw
      | false =>
        rw [collapseWSAux_cons_ws_false ds hd] at h
        rcases List.mem_cons.mp h with rfl | h2
        · rfl
        · exact ih true h2 hw
    | false =>
      rw [collapseWSAux_cons_not_ws ds b hd] at h
      rcases List.mem_cons.mp h with rfl | h2
      · rw [hw] at hd
        exact absurd hd (by decide)
      · exact ih false h2 hw

/-- The collapsed list never starts with whitespace when the flag records a
preceding whitespace run. -/
theorem head_collapseWSAux_true :
    ∀ (l : List Char) {c : Char},
      (collapseWSAux true l).head? = some c → isWS c = false := by
  intro l
  induction l with
  | nil =>
    intro c h
    simp [collapseWSAux] at h
  | cons d ds ih =>
    intro c h
    cases hd : isWS d with
    | true =>
      rw [collapseWSAux_cons_ws_true ds hd] at h
      exact ih h
    | false =>
      rw [collapseWSAux_cons_not_ws ds true hd] at h
      rw [List.head?_cons] at h
      cases h
      exact hd

/-- No two adjacent characters of the collapsed list are both whitespace. -/
theorem chain_collapseWSAux :
    ∀ (l : List Char) (b : Bool),
      List.Chain' (fun a d => ¬(isWS a = true ∧ isWS d = true)) (collapseWSAux b l) := by
  intro l
  induction l with
  | nil =>
    intro b
    simp [collapseWSAux]
  | cons d ds ih =>
    intro b
    cases hd : isWS d with
    | true =>
      cases b with
      | true =>
        rw [collapseWSAux_cons_ws_true ds hd]
        exact ih true
      | false =>
        rw [collapseWSAux_cons_ws_false ds hd]
        refine List.chain'_cons'.mpr ⟨?_, ih true⟩
        intro y hy hcon
        have hyw := head_collapseWSAux_true ds (Option.mem_def.mp hy)
        rw [hyw] at hcon
        exact absurd hcon.2 (by decide)
    | false =>
      rw [collapseWSAux_cons_not_ws ds b hd]
      refine List.chain'_cons'.mpr ⟨?_, ih false⟩
      intro y hy hcon
      rw [hd] at hcon
      exact absurd hcon.1 (by decide)

theorem head_dropWhile_isWS :
    ∀ (l : List Char) {c : Char},
      (l.dropWhile isWS).head? = some c → isWS c = false := by
  intro l
  induction l with
  | nil =>
    intro c h
    simp at h
  | cons d ds ih =>
    intro c h
    rw [List.dropWhile_cons] at h
    by_cases hd : isWS d = true
    · rw [if_pos hd] at h
      exact ih h
    · rw [if_neg hd] at h
      rw [List.head?_cons] at h
      cases h
      exact Bool.not_eq_true _ ▸ hd

theorem getLast?_of_suffix {α : Type} {q m : List α} (h : q <:+ m) (hq : q ≠ []) :
    m.getLast? = q.getLast? := by
  rcases h with ⟨t, rfl⟩
  rw [List.getLast?_append]
  cases hl : q.getLast? with
  | none => exact absurd (List.getLast?_eq_none_iff.mp hl) hq
  | some a => simp

/-- The head of a stripped list is not whitespace. -/
theorem trimWS_head (l : List Char) {c : Char} (h : (trimWS l).head? = some c) :
    isWS c = false := by
  unfold trimWS at h
  rw [List.head?_reverse] at h
  have hq : (l.dropWhile isWS).reverse.dropWhile isWS ≠ [] := by
    intro he
    rw [he] at h
    simp at h
  rw [← getLast?_of_suffix (List.dropWhile_suffix isWS) hq, List.getLast?_reverse] at h
  exact head_dropWhile_isWS l h

/-- The last character of a stripped list is not whitespace. -/
theorem trimWS_getLast (l : List Char) {c : Char} (h : (trimWS l).getLast? = some c) :
    isWS c = false := by
  unfold trimWS at h
  rw [List.getLast?_reverse] at h
  exact head_dropWhile_isWS _ h

theorem mem_trimWS {c : Char} {l : List Char} (h : c ∈ trimWS l) : c ∈ l := by
  unfold trimWS at h
  rw [List.mem_reverse] at h
  have h2 := (List.dropWhile_sublist isWS).subset h
  rw [List.mem_reverse] at h2
  exact (List.dropWhile_sublist isWS).subset h2

theorem chain_NW_reverse {m : List Char}
    (h : List.Chain' (fun a d => ¬(isWS a = true ∧ isWS d = true)) m) :
    List.Chain' (fun a d => ¬(isWS a = true ∧ isWS d = true)) m.reverse := by
  rw [List.chain'_reverse]
  exact h.imp (fun a d had hcon => had ⟨hcon.2, hcon.1⟩)

/-- Stripping preserves the no-adjacent-whitespace invariant. -/
theorem chain_trimWS {l : List Char}
    (h : List.Chain' (fun a d => ¬(isWS a = true ∧ isWS d = true)) l) :
    List.Chain' (fun a d => ¬(isWS a = true ∧ isWS d = true)) (trimWS l) := by
  unfold trimWS
  exact chain_NW_reverse
    ((chain_NW_reverse (h.suffix (List.dropWhile_suffix isWS))).suffix
      (List.dropWhile_suffix isWS))

/-- A list with no adjacent whitespace, whose whitespace characters are all
spaces and which does not end in whitespace, is a fixed point of the
whitespace-collapsing pass. -/
theorem collapseWSAux_false_fixed :
    ∀ l : List Char,
      List.Chain' (fun a d => ¬(isWS a = true ∧ isWS d = true)) l
      → (∀ c ∈ l, isWS c = true → c = ' ')
      → (∀ c, l.getLast? = some c → isWS c = false)
      → collapseWSAux false l = l := by
  intro l
  induction l with
  | nil =>
    intro _ _ _
    rfl
  | cons d ds ih =>
    intro hch hsp hlast
    cases hd : isWS d with
    | false =>
      rw [collapseWSAux_cons_not_ws ds false hd]
      congr 1
      refine ih (List.chain'_cons'.mp hch).2
        (fun c hc hw => hsp c (List.mem_cons_of_mem d hc) hw) ?_
      intro c hcl
      cases ds with
      | nil => simp at hcl
      | cons e es => exact hlast c (by rw [List.getLast?_cons_cons]; exact hcl)
    | true =>
      have hd' : d = ' ' := hsp d (List.mem_cons_self d ds) hd
      cases ds with
      | nil =>
        exfalso
        have hl := hlast d (by simp)
        rw [hd] at hl
        exact absurd hl (by decide)
      | cons e es =>
        have hne : isWS e = false := by
          have hpair := (List.chain'_cons.mp hch).1
          by_contra hcon
          exact hpair ⟨hd, by simpa using hcon⟩
        have hIH : collapseWSAux false (e :: es) = e :: es := by
          refine ih (List.chain'_cons.mp hch).2
            (fun c hc hw => hsp c (List.mem_cons_of_mem d hc) hw) ?_
          intro c hcl
          exact hlast c (by rw [List.getLast?_cons_cons]; exact hcl)
        have hes : collapseWSAux false es = es := by
          rw [collapseWSAux_cons_not_ws es false hne] at hIH
          simpa using hIH
        rw [collapseWSAux_cons_ws_false (e :: es) hd,
          collapseWSAux_cons_not_ws es true hne, hes, hd']

theorem dropWhile_isWS_eq_self {l : List Char}
    (h : ∀ c, l.head? = some c → isWS c = false) : l.dropWhile isWS = l := by
  cases l with
  | nil => rfl
  | cons d ds =>
    rw [List.dropWhile_cons, if_neg (by simp [h d rfl])]

/-- A list that neither starts nor ends with whitespace is a fixed point of
stripping. -/
theorem trimWS_eq_self {l : List Char}
    (hh : ∀ c, l.head? = some c → isWS c = false)
    (hl : ∀ c, l.getLast? = some c → isWS c = false) : trimWS l = l := by
  unfold trimWS
  rw [dropWhile_isWS_eq_self hh]
  rw [dropWhile_isWS_eq_self (by
    intro c hc
    rw [List.head?_reverse] at hc
    exact hl c hc)]
  exact List.reverse_reverse l

theorem lowerL_eq_self : ∀ l : List Char, (∀ c ∈ l, lowerChar c = c) → lowerL l = l := by
  intro l
  induction l with
  | nil =>
    intro _
    rfl
  | cons d ds ih =>
    intro h
    show lowerChar d :: lowerL ds = d :: ds
    rw [h d (List.mem_cons_self d ds), ih (fun c hc => h c (List.mem_cons_of_mem d hc))]

/-- C9: the fallback preprocessing (lower-case, collapse each whitespace run
to a single space, strip the ends) is idempotent: applying it to its own
output returns that output unchanged. -/
theorem claim_C9 (s : String) :
    preprocess_fallback (preprocess_fallback s) = preprocess_fallback s := by
  have hmemx : ∀ c ∈ trimWS (collapseWS (lowerL s.data)), lowerChar c = c := by
    intro c hc
    rcases mem_collapseWSAux (lowerL s.data) false (mem_trimWS hc) with rfl | h2
    · decide
    · rcases List.mem_map.mp h2 with ⟨c0, -, rfl⟩
      exact lowerChar_idem c0
  have hlow : lowerL (trimWS (collapseWS (lowerL s.data)))
      = trimWS (collapseWS (lowerL s.data)) :=
    lowerL_eq_self _ hmemx
  have hch : List.Chain' (fun a d => ¬(isWS a = true ∧ isWS d = true))
      (trimWS (collapseWS (lowerL s.data))) :=
    chain_trimWS (chain_collapseWSAux (lowerL s.data) false)
  have hsp : ∀ c ∈ trimWS (collapseWS (lowerL s.data)), isWS c = true → c = ' ' :=
    fun c hc hw => ws_mem_collapseWSAux (lowerL s.data) false (mem_trimWS hc) hw
  have hhead : ∀ c, (trimWS (collapseWS (lowerL s.data))).head? = some c → isWS c = false :=
    fun c hc => trimWS_head _ hc
  have hlast : ∀ c, (trimWS (collapseWS (lowerL s.data))).getLast? = some c → isWS c = false :=
    fun c hc => trimWS_getLast _ hc
  have hcol : collapseWSAux false (trimWS (collapseWS (lowerL s.data)))
      = trimWS (collapseWS (lowerL s.data)) :=
    collapseWSAux_false_fixed _ hch hsp hlast
  have htrim : trimWS (trimWS (collapseWS (lowerL s.data)))
      = trimWS (collapseWS (lowerL s.data)) :=
    trimWS_eq_self hhead hlast
  show (⟨trimWS (collapseWS (lowerL (trimWS (collapseWS (lowerL s.data)))))⟩ : String)
      = ⟨trimWS (collapseWS (lowerL s.data))⟩
  rw [hlow]
  show (⟨trimWS (collapseWSAux false (trimWS (collapseWS (lowerL s.data))))⟩ : String) = _
  rw [hcol, htrim]
